import Mathlib

/-!
# Verification of the EBPG beam-drift log plotter (`drift_gui.py`)

A shallow embedding of the script's post-dialog behaviour.  The script reads a
logfile, checks its first line for the marker `JMAN LOGFILE`, scans every line
with four regular expressions (wafer centre, date, drift rate, calibration
block position), reconstructs timestamps with a midnight-rollover correction,
normalizes block positions against the wafer centre, and reports
min/max-by-magnitude drift values.

Modelling choices:
* A line of the logfile is represented by the results of the four regex
  searches applied to it (`Line`): each field is the tuple of captured groups,
  already parsed to numbers where the Python code parses them.  The regexes
  only capture digit/sign/dot substrings, so the numeric parses the claims
  exercise always succeed; group strings are therefore represented by their
  values (`ℚ` for floats, `ℕ` for digit strings).
* Python `datetime` values are represented by their total minutes
  (1440 * proleptic-Gregorian ordinal + 60*hour + minute); the script always
  builds datetimes with seconds = 0, and `timedelta(days=1)` is `+ 1440`
  minutes.  Comparison of datetimes is chronological, which this encoding
  preserves.  `datetime.strptime` is modelled by `strptime`, which validates
  the month abbreviation (case-insensitively, as `%b` does), the day against
  the month length, the year range 1..9999, hour ≤ 23 and minute ≤ 59,
  returning `none` (a Python `ValueError`) otherwise.
* Floats are modelled by `ℚ`.
* The mutable scan variables of the script form `ScanState`; reading the
  date variables (`dyear` …) before any date line matched is a Python
  `NameError`, captured by `dateCtx : Option DateGroups`.
* `sys.exit` after a diagnostic is a designed termination
  (`ProgResult.invalidLogfile`, `ProgResult.noDriftPoints`); uncaught Python
  exceptions are `ProgResult.pyError`.
-/

/-- Python runtime errors the script can raise. -/
inductive PyError where
  | nameError
  | valueError
  | indexError
deriving DecidableEq, Repr

/-- Captured groups of `wafer_centre_position`
(`--centre=(g1),(g2).*--size=(g3),(g4)`), values in micrometers. -/
structure CentreGroups where
  g1 : ℚ
  g2 : ℚ
  g3 : ℚ
  g4 : ℚ
deriving DecidableEq, Repr

/-- Captured groups of `date_pattern`:
`(dweek) (dmonth) (dday) (dtime) (dtzone) (dyear)`. -/
structure DateGroups where
  dweek : String
  dmonth : String
  dday : ℕ
  dtime : String
  dtzone : String
  dyear : ℕ
deriving DecidableEq, Repr

/-- Captured groups of `drift_pattern`:
`cal drift (hour):(minute) ; (x)_nm,(y)_nm (dxdt)_nm/min,(dydt)_nm/min`.
Groups 3 and 4 are discarded by the script. -/
structure DriftGroups where
  hour : ℕ
  minute : ℕ
  x_nm : ℚ
  y_nm : ℚ
  dxdt : ℚ
  dydt : ℚ
deriving DecidableEq, Repr

/-- Captured groups of `drift_position`:
`block: (block) Abs coord: (x)_mm,(y)_mm`. -/
structure PosGroups where
  block : ℕ
  x : ℚ
  y : ℚ
deriving DecidableEq, Repr

/-- One line of the logfile, represented by the results of the four regex
searches the scanner applies to it. -/
structure Line where
  centrematch : Option CentreGroups
  datematch : Option DateGroups
  driftmatch : Option DriftGroups
  posmatch : Option PosGroups
deriving DecidableEq, Repr

/-- A line that only matches the date pattern. -/
def dateLine (d : DateGroups) : Line := ⟨none, some d, none, none⟩

/-- A line that only matches the drift-rate pattern. -/
def driftLine (g : DriftGroups) : Line := ⟨none, none, some g, none⟩

/-- A line that only matches the wafer-centre pattern. -/
def centreLine (c : CentreGroups) : Line := ⟨some c, none, none, none⟩

/-- A line that only matches the calibration-block pattern. -/
def posLine (p : PosGroups) : Line := ⟨none, none, none, some p⟩

/-! ## Calendar arithmetic (Python `datetime`)

The proleptic Gregorian ordinal, exactly as `datetime.date.toordinal`
computes it: day 1 is January 1 of year 1. -/

/-- Gregorian leap-year test. -/
def isLeap (y : ℕ) : Bool := y % 4 == 0 && (y % 100 != 0 || y % 400 == 0)

/-- Number of days in month `m` (1..12) of year `y`. -/
def daysInMonth (y m : ℕ) : ℕ :=
  if m = 2 then (if isLeap y then 29 else 28)
  else if m = 4 ∨ m = 6 ∨ m = 9 ∨ m = 11 then 30
  else 31

/-- Days in all months strictly before month `m` of year `y`. -/
def daysBeforeMonth (y m : ℕ) : ℕ :=
  (List.range (m - 1)).foldl (fun acc i => acc + daysInMonth y (i + 1)) 0

/-- Days in all years strictly before year `y` (year 1 is the first year). -/
def daysBeforeYear (y : ℕ) : ℕ :=
  365 * (y - 1) + ((y - 1) / 4 - (y - 1) / 100 + (y - 1) / 400)

/-- Proleptic Gregorian ordinal of the date `y-m-d` (January 1 of year 1 is
day 1), as in `datetime.date.toordinal`. -/
def toordinal (y m d : ℕ) : ℕ := daysBeforeYear y + daysBeforeMonth y m + d

/-- ASCII lowercasing of one character. -/
def lowerChar (c : Char) : Char :=
  if 'A' ≤ c ∧ c ≤ 'Z' then Char.ofNat (c.toNat + 32) else c

/-- Month number of a three-letter month abbreviation, case-insensitive as in
`strptime`'s `%b`. -/
def monthNum (s : String) : Option ℕ :=
  match s.toList.map lowerChar with
  | ['j','a','n'] => some 1 | ['f','e','b'] => some 2
  | ['m','a','r'] => some 3 | ['a','p','r'] => some 4
  | ['m','a','y'] => some 5 | ['j','u','n'] => some 6
  | ['j','u','l'] => some 7 | ['a','u','g'] => some 8
  | ['s','e','p'] => some 9 | ['o','c','t'] => some 10
  | ['n','o','v'] => some 11 | ['d','e','c'] => some 12
  | _ => none

/-- `datetime.strptime(f'{year}-{mon}-{day} {hour}:{minute}:00',
'%Y-%b-%d %H:%M:%S')`, encoded as total minutes (seconds are always 0).
Returns `none` where Python raises `ValueError`. -/
def strptime (year : ℕ) (mon : String) (day hour minute : ℕ) : Option ℤ :=
  match monthNum mon with
  | none => none
  | some m =>
    if 1 ≤ year ∧ year ≤ 9999 ∧ 1 ≤ day ∧ day ≤ daysInMonth year m ∧
        hour ≤ 23 ∧ minute ≤ 59 then
      some (1440 * (toordinal year m day : ℤ) + (60 * hour + minute : ℕ))
    else none

/-! ## The scanner state (the script's mutable variables) -/

/-- The mutable variables of the scanning loop (lines 56..71 of the script).
`dateCtx` records whether the `dweek, dmonth, …` variables have been
assigned (a drift line before any date line raises `NameError`); `sizes`
records whether `size_x`/`size_y` have been assigned. -/
structure ScanState where
  timestamps : List ℤ
  dxdt_values : List ℚ
  dydt_values : List ℚ
  drift_pos_data : List (ℕ × ℚ × ℚ)
  wafer_centre : List ℚ
  sizes : Option (ℚ × ℚ)
  run_date : Option String
  run_start_time : Option String
  previous_timestamp : Option ℤ
  drift_data_found : Bool
  dateCtx : Option DateGroups
deriving DecidableEq, Repr

/-- Initial values of the scan variables. -/
def initState : ScanState :=
  { timestamps := [], dxdt_values := [], dydt_values := [],
    drift_pos_data := [], wafer_centre := [], sizes := none,
    run_date := none, run_start_time := none,
    previous_timestamp := none, drift_data_found := false, dateCtx := none }

/-- Wafer-centre branch (lines 76..85): on a match, overwrite `wafer_centre`
and the sizes with the matched values divided by 1000 (µm → mm). -/
def applyCentre (st : ScanState) (line : Line) : ScanState :=
  match line.centrematch with
  | none => st
  | some c =>
    { st with wafer_centre := [c.g1 / 1000, c.g2 / 1000],
              sizes := some (c.g3 / 1000, c.g4 / 1000) }

/-- Date branch (lines 88..96): on a match, rebind the date variables; set
`run_date`/`run_start_time` only if `run_date` is still `None`. -/
def applyDate (st : ScanState) (line : Line) : ScanState :=
  match line.datematch with
  | none => st
  | some d =>
    { st with dateCtx := some d,
              run_date := match st.run_date with
                | none => some (toString d.dyear ++ "-" ++ d.dmonth ++ "-" ++ toString d.dday)
                | some s => some s,
              run_start_time := match st.run_date with
                | none => some d.dtime
                | some _ => st.run_start_time }

/-- Drift branch (lines 99..124): on a match set `drift_data_found`, build the
candidate timestamp from the most recent date variables via `strptime`
(`NameError` if none were ever assigned), add one day if the candidate is
strictly earlier than `previous_timestamp`, update the cursor and append the
sample. -/
def applyDrift (st : ScanState) (line : Line) : Except PyError ScanState :=
  match line.driftmatch with
  | none => .ok st
  | some g =>
    let st := { st with drift_data_found := true }
    match st.dateCtx with
    | none => .error .nameError
    | some d =>
      match strptime d.dyear d.dmonth d.dday g.hour g.minute with
      | none => .error .valueError
      | some ts =>
        let timestamp : ℤ :=
          match st.previous_timestamp with
          | some p => if ts < p then ts + 1440 else ts
          | none => ts
        .ok { st with
              previous_timestamp := some timestamp,
              timestamps := st.timestamps ++ [timestamp],
              dxdt_values := st.dxdt_values ++ [g.dxdt],
              dydt_values := st.dydt_values ++ [g.dydt] }

/-- Calibration-block branch (lines 127..133): on a match append
`(block_number, x_coord, y_coord)`. -/
def applyPos (st : ScanState) (line : Line) : ScanState :=
  match line.posmatch with
  | none => st
  | some p =>
    { st with drift_pos_data := st.drift_pos_data ++ [(p.block, p.x, p.y)] }

/-- Body of the scanning loop: the four branches in source order. -/
def processLine (st : ScanState) (line : Line) : Except PyError ScanState :=
  match applyDrift (applyDate (applyCentre st line) line) line with
  | .error e => .error e
  | .ok st' => .ok (applyPos st' line)

/-- The scanning loop over all lines of the file. -/
def runScan : ScanState → List Line → Except PyError ScanState
  | st, [] => .ok st
  | st, l :: ls =>
    match processLine st l with
    | .error e => .error e
    | .ok st' => runScan st' ls

/-! ## Header check (lines 39..43) -/

/-- Python `str.strip()` whitespace set (the ASCII part relevant here). -/
def pyWhitespace (c : Char) : Bool :=
  c = ' ' || c = '\t' || c = '\n' || c = '\r' || c = '\x0b' || c = '\x0c'

/-- Python `str.strip()` on a character list. -/
def pyStrip (s : List Char) : List Char :=
  ((s.dropWhile pyWhitespace).reverse.dropWhile pyWhitespace).reverse

/-- Python substring containment `needle in hay`. -/
def listContains (needle : List Char) : List Char → Bool
  | [] => needle.isEmpty
  | c :: rest => needle.isPrefixOf (c :: rest) || listContains needle rest

/-- The first-line validity check: `"JMAN LOGFILE" in first_line.strip()`. -/
def headerOk (first_line : String) : Bool :=
  listContains "JMAN LOGFILE".toList (pyStrip first_line.toList)

/-! ## Position normalization and summary (lines 136..204) -/

/-- Python tuple order on the sort key `(block_number, x, y)`:
`sorted(..., key=lambda x: (x[0], x[1], x[2]))` compares keys
lexicographically. -/
def posKeyLe (a b : ℕ × ℚ × ℚ) : Prop :=
  a.1 < b.1 ∨ (a.1 = b.1 ∧ (a.2.1 < b.2.1 ∨ (a.2.1 = b.2.1 ∧ a.2.2 ≤ b.2.2)))

instance : DecidableRel posKeyLe := fun a b => by
  unfold posKeyLe; infer_instance

instance : IsTotal (ℕ × ℚ × ℚ) posKeyLe := by
  constructor
  intro a b
  unfold posKeyLe
  rcases lt_trichotomy a.1 b.1 with h | h | h
  · exact Or.inl (Or.inl h)
  · rcases lt_trichotomy a.2.1 b.2.1 with h2 | h2 | h2
    · exact Or.inl (Or.inr ⟨h, Or.inl h2⟩)
    · rcases le_total a.2.2 b.2.2 with h3 | h3
      · exact Or.inl (Or.inr ⟨h, Or.inr ⟨h2, h3⟩⟩)
      · exact Or.inr (Or.inr ⟨h.symm, Or.inr ⟨h2.symm, h3⟩⟩)
    · exact Or.inr (Or.inr ⟨h.symm, Or.inl h2⟩)
  · exact Or.inr (Or.inl h)

instance : IsTrans (ℕ × ℚ × ℚ) posKeyLe := by
  constructor
  intro a b c hab hbc
  unfold posKeyLe at *
  rcases hab with h | ⟨h, hx⟩
  · rcases hbc with h' | ⟨h', _⟩
    · exact Or.inl (h.trans h')
    · exact Or.inl (h' ▸ h)
  · rcases hbc with h' | ⟨h', hx'⟩
    · exact Or.inl (h ▸ h')
    · refine Or.inr ⟨h.trans h', ?_⟩
      rcases hx with h2 | ⟨h2, h3⟩
      · rcases hx' with h2' | ⟨h2', _⟩
        · exact Or.inl (h2.trans h2')
        · exact Or.inl (h2' ▸ h2)
      · rcases hx' with h2' | ⟨h2', h3'⟩
        · exact Or.inl (h2 ▸ h2')
        · exact Or.inr ⟨h2.trans h2', h3.trans h3'⟩

/-- Line 141: `sorted(drift_pos_data, key=lambda x: (x[0], x[1], x[2]))`.
Python's `sorted` is a stable sort; any stable sort produces the same list,
so it is modelled by insertion sort. -/
def sorted_drift_pos_data (l : List (ℕ × ℚ × ℚ)) : List (ℕ × ℚ × ℚ) :=
  List.insertionSort posKeyLe l

/-- Lines 147..149 for one block: `wafer_centre[0]` / `wafer_centre[1]`
raise `IndexError` when absent. -/
def relative_one (wc : List ℚ) (t : ℕ × ℚ × ℚ) : Except PyError (ℕ × ℚ × ℚ) :=
  match wc[0]?, wc[1]? with
  | some cx, some cy => .ok (t.1, t.2.1 - cx, t.2.2 - cy)
  | _, _ => .error .indexError

/-- Lines 144..152: the loop building `relative_drift_pos_data`. -/
def relative_drift_pos_data_of (wc : List ℚ) :
    List (ℕ × ℚ × ℚ) → Except PyError (List (ℕ × ℚ × ℚ))
  | [] => .ok []
  | t :: rest =>
    match relative_one wc t with
    | .error e => .error e
    | .ok r =>
      match relative_drift_pos_data_of wc rest with
      | .error e => .error e
      | .ok rs => .ok (r :: rs)

/-- Python `min(l, key=key)`: first element with strictly smallest key;
`none` models the `ValueError` on an empty list. -/
def pyMinKey (key : ℚ → ℚ) : List ℚ → Option ℚ
  | [] => none
  | x :: xs => some (xs.foldl (fun b a => if key a < key b then a else b) x)

/-- Python `max(l, key=key)`: first element with strictly largest key. -/
def pyMaxKey (key : ℚ → ℚ) : List ℚ → Option ℚ
  | [] => none
  | x :: xs => some (xs.foldl (fun b a => if key b < key a then a else b) x)

/-- The data handed to the renderer (plots and console summary). -/
structure Output where
  wafer_centre : List ℚ
  size_x : ℚ
  size_y : ℚ
  sorted_relative_drift_pos_data : List (ℕ × ℚ × ℚ)
  time_values : List ℚ
  dxdt_values : List ℚ
  dydt_values : List ℚ
  min_dx : ℚ
  max_dx : ℚ
  min_dy : ℚ
  max_dy : ℚ
  run_date : Option String
  run_start_time : Option String
deriving DecidableEq, Repr

/-- Overall result of a run of the script. -/
inductive ProgResult where
  | invalidLogfile
  | noDriftPoints
  | pyError (e : PyError)
  | success (out : Output)
deriving DecidableEq, Repr

/-- Lines 136..204: everything after the scanning loop, in source order of
the possible failures: the `drift_data_found` exit, the normalization loop
(possible `IndexError` on `wafer_centre[0]`), the use of `size_x`/`size_y`
for the plot bounds (possible `NameError`), `timestamps[0]`, min/max. -/
def runPipeline (st : ScanState) : ProgResult :=
  if st.drift_data_found = false then .noDriftPoints
  else
    match relative_drift_pos_data_of st.wafer_centre
        (sorted_drift_pos_data st.drift_pos_data) with
    | .error e => .pyError e
    | .ok rel =>
      let sortedRel := List.insertionSort posKeyLe rel
      match st.sizes with
      | none => .pyError .nameError
      | some (sx, sy) =>
        match st.timestamps with
        | [] => .pyError .indexError
        | t0 :: _ =>
          let time_values := st.timestamps.map (fun t => ((t - t0 : ℤ) : ℚ))
          match pyMinKey (fun q => |q|) st.dxdt_values,
                pyMaxKey (fun q => |q|) st.dxdt_values,
                pyMinKey (fun q => |q|) st.dydt_values,
                pyMaxKey (fun q => |q|) st.dydt_values with
          | some mindx, some maxdx, some mindy, some maxdy =>
            .success
              { wafer_centre := st.wafer_centre,
                size_x := sx, size_y := sy,
                sorted_relative_drift_pos_data := sortedRel,
                time_values := time_values,
                dxdt_values := st.dxdt_values,
                dydt_values := st.dydt_values,
                min_dx := mindx, max_dx := maxdx,
                min_dy := mindy, max_dy := maxdy,
                run_date := st.run_date,
                run_start_time := st.run_start_time }
          | _, _, _, _ => .pyError .valueError

/-- The whole script run on a logfile whose first line is `first_line` and
whose lines produce the given regex-match results. -/
def program (first_line : String) (lines : List Line) : ProgResult :=
  if headerOk first_line then
    match runScan initState lines with
    | .error e => .pyError e
    | .ok st => runPipeline st
  else .invalidLogfile

/-! ## The timestamp reconstructor in isolation (lines 108..115)

`adjustTs` is the rollover correction applied to one candidate timestamp;
`reconstructFrom` threads the `previous_timestamp` cursor through a list of
candidate timestamps, as the drift branch does across loop iterations. -/

/-- Lines 111..112: add one day when the candidate is strictly earlier than
the previous (possibly adjusted) timestamp. -/
def adjustTs (prev : Option ℤ) (c : ℤ) : ℤ :=
  match prev with
  | some p => if c < p then c + 1440 else c
  | none => c

/-- The corrected timestamps produced from a list of candidate timestamps,
starting from cursor `prev`. -/
def reconstructFrom (prev : Option ℤ) : List ℤ → List ℤ
  | [] => []
  | c :: cs =>
    let t := adjustTs prev c
    t :: reconstructFrom (some t) cs

/-- Number of indices at which the next element is strictly smaller
(the "time-of-day decreases" events of the spec). -/
def descents : List ℤ → ℕ
  | a :: b :: rest => (if b < a then 1 else 0) + descents (b :: rest)
  | _ => 0

/-- Time of day of a drift match, in minutes. -/
def todM (g : DriftGroups) : ℤ := 60 * g.hour + g.minute

/-- The day ordinal a date context denotes (junk value 0 when the month
abbreviation is invalid; unused in that case, since `strptime` fails). -/
def dateOrd (d : DateGroups) : ℤ :=
  match monthNum d.dmonth with
  | some m => (toordinal d.dyear m d.dday : ℤ)
  | none => 0

/-- The candidate timestamp the drift branch builds for drift groups `g`
under date context `d` (meaningful when `strptime` succeeds). -/
def mkCand (d : DateGroups) (g : DriftGroups) : ℤ :=
  1440 * dateOrd d + todM g

/-! ## Concrete sample data for evaluations -/

/-- A date line context: `Fri Nov 15 23:50:26 AEST 2024`. -/
def sampleDate : DateGroups := ⟨"Fri", "Nov", 15, "23:50:26", "AEST", 2024⟩

/-- A drift sample at 23:58. -/
def sampleDrift2358 : DriftGroups := ⟨23, 58, 0, 0, -5, 3⟩

/-- A drift sample at 00:02 (after midnight). -/
def sampleDrift0002 : DriftGroups := ⟨0, 2, 0, 0, -2, 4⟩

/-- A wafer-centre line: centre (1000, 2000) µm, size (100000, 100000) µm. -/
def sampleCentre1 : CentreGroups := ⟨1000, 2000, 100000, 100000⟩

/-- A second wafer-centre line with different values. -/
def sampleCentre2 : CentreGroups := ⟨3000, 4000, 200000, 200000⟩

/-- A calibration block line: block 1 at (10, 20) mm. -/
def samplePos : PosGroups := ⟨1, 10, 20⟩

/-- A scan state whose date variables have been assigned from `sampleDate`. -/
def initWithDate : ScanState := { initState with dateCtx := some sampleDate }

/-- A log with one date line and two drift samples that straddle midnight. -/
def rolloverLog : List Line :=
  [dateLine sampleDate, driftLine sampleDrift2358, driftLine sampleDrift0002]

/-- The drift lines of `rolloverLog` (everything after the date line). -/
def rolloverRest : List Line :=
  [driftLine sampleDrift2358, driftLine sampleDrift0002]

/-- A complete log: date, one drift sample, one wafer-centre line, one
calibration block. -/
def fullLog : List Line :=
  [dateLine sampleDate, driftLine sampleDrift2358,
   centreLine sampleCentre1, posLine samplePos]

/-- A log with two different wafer-centre lines. -/
def twoCentreLog : List Line :=
  [dateLine sampleDate, driftLine sampleDrift2358,
   centreLine sampleCentre1, centreLine sampleCentre2, posLine samplePos]

/-- A log with drift data and a calibration block but no wafer-centre line. -/
def noCentreLog : List Line :=
  [dateLine sampleDate, driftLine sampleDrift2358, posLine samplePos]

/-- A log with two drift samples and a wafer-centre line (no blocks). -/
def twoDriftLog : List Line :=
  [dateLine sampleDate, driftLine sampleDrift2358, driftLine sampleDrift0002,
   centreLine sampleCentre1]

/-! ## Step lemmas about the scanning loop -/

theorem runScan_cons (st : ScanState) (l : Line) (ls : List Line) :
    runScan st (l :: ls) =
      match processLine st l with
      | .error e => .error e
      | .ok st' => runScan st' ls := rfl

theorem processLine_ok_wafer_centre {st st' : ScanState} {l : Line}
    (h : processLine st l = .ok st') :
    st'.wafer_centre = (applyCentre st l).wafer_centre ∧
    st'.sizes = (applyCentre st l).sizes := by
  unfold processLine at h
  cases hdr : applyDrift (applyDate (applyCentre st l) l) l with
  | error e => rw [hdr] at h; exact absurd h (by simp)
  | ok st2 =>
    rw [hdr] at h
    simp only [Except.ok.injEq] at h
    subst h
    have h2 : st2.wafer_centre = (applyCentre st l).wafer_centre ∧
        st2.sizes = (applyCentre st l).sizes := by
      unfold applyDrift at hdr
      cases hm : l.driftmatch with
      | none =>
        rw [hm] at hdr; simp only [Except.ok.injEq] at hdr
        rw [← hdr]
        unfold applyDate; cases l.datematch <;> simp
      | some g =>
        rw [hm] at hdr
        cases hd : (applyDate (applyCentre st l) l).dateCtx with
        | none => simp [hd] at hdr
        | some d =>
          simp only [hd] at hdr
          cases hs : strptime d.dyear d.dmonth d.dday g.hour g.minute with
          | none => simp [hs] at hdr
          | some ts =>
            simp only [hs, Except.ok.injEq] at hdr
            rw [← hdr]
            unfold applyDate; cases l.datematch <;> simp
    constructor
    · rw [← h2.1]; unfold applyPos; cases l.posmatch <;> simp
    · rw [← h2.2]; unfold applyPos; cases l.posmatch <;> simp

theorem processLine_ok_iff {st st' : ScanState} {l : Line} :
    processLine st l = .ok st' ↔
    ∃ st2, applyDrift (applyDate (applyCentre st l) l) l = .ok st2 ∧
      st' = applyPos st2 l := by
  unfold processLine
  cases applyDrift (applyDate (applyCentre st l) l) l with
  | error e => simp
  | ok s2 => simp [eq_comm]

theorem applyDrift_none {st : ScanState} {l : Line} (h : l.driftmatch = none) :
    applyDrift st l = .ok st := by
  unfold applyDrift; rw [h]

theorem applyDrift_some {st : ScanState} {l : Line} {g : DriftGroups}
    {d : DateGroups} {c : ℤ}
    (hg : l.driftmatch = some g) (hd : st.dateCtx = some d)
    (hc : strptime d.dyear d.dmonth d.dday g.hour g.minute = some c) :
    applyDrift st l = .ok { st with
      drift_data_found := true,
      previous_timestamp := some (adjustTs st.previous_timestamp c),
      timestamps := st.timestamps ++ [adjustTs st.previous_timestamp c],
      dxdt_values := st.dxdt_values ++ [g.dxdt],
      dydt_values := st.dydt_values ++ [g.dydt] } := by
  unfold applyDrift adjustTs
  rw [hg]
  simp only [hd, hc]

theorem applyDrift_ok_inv {st st' : ScanState} {l : Line}
    (h : applyDrift st l = .ok st') :
    (l.driftmatch = none ∧ st' = st) ∨
    ∃ g d c, l.driftmatch = some g ∧ st.dateCtx = some d ∧
      strptime d.dyear d.dmonth d.dday g.hour g.minute = some c ∧
      st' = { st with
              drift_data_found := true,
              previous_timestamp := some (adjustTs st.previous_timestamp c),
              timestamps := st.timestamps ++ [adjustTs st.previous_timestamp c],
              dxdt_values := st.dxdt_values ++ [g.dxdt],
              dydt_values := st.dydt_values ++ [g.dydt] } := by
  unfold applyDrift at h
  cases hm : l.driftmatch with
  | none =>
    rw [hm] at h; simp only [Except.ok.injEq] at h
    exact Or.inl ⟨rfl, h.symm⟩
  | some g =>
    rw [hm] at h
    cases hd : st.dateCtx with
    | none => simp [hd] at h
    | some d =>
      simp only [hd] at h
      cases hs : strptime d.dyear d.dmonth d.dday g.hour g.minute with
      | none => simp [hs] at h
      | some ts =>
        simp only [hs, Except.ok.injEq] at h
        refine Or.inr ⟨g, d, ts, rfl, rfl, hs, ?_⟩
        rw [← h]
        unfold adjustTs
        rfl

@[simp] theorem applyCentre_dateCtx (st : ScanState) (l : Line) :
    (applyCentre st l).dateCtx = st.dateCtx := by
  unfold applyCentre; cases l.centrematch <;> rfl

@[simp] theorem applyCentre_timestamps (st : ScanState) (l : Line) :
    (applyCentre st l).timestamps = st.timestamps := by
  unfold applyCentre; cases l.centrematch <;> rfl

@[simp] theorem applyCentre_previous (st : ScanState) (l : Line) :
    (applyCentre st l).previous_timestamp = st.previous_timestamp := by
  unfold applyCentre; cases l.centrematch <;> rfl

@[simp] theorem applyCentre_pos (st : ScanState) (l : Line) :
    (applyCentre st l).drift_pos_data = st.drift_pos_data := by
  unfold applyCentre; cases l.centrematch <;> rfl

@[simp] theorem applyCentre_found (st : ScanState) (l : Line) :
    (applyCentre st l).drift_data_found = st.drift_data_found := by
  unfold applyCentre; cases l.centrematch <;> rfl

@[simp] theorem applyDate_wafer (st : ScanState) (l : Line) :
    (applyDate st l).wafer_centre = st.wafer_centre := by
  unfold applyDate; cases l.datematch <;> rfl

@[simp] theorem applyDate_sizes (st : ScanState) (l : Line) :
    (applyDate st l).sizes = st.sizes := by
  unfold applyDate; cases l.datematch <;> rfl

@[simp] theorem applyDate_timestamps (st : ScanState) (l : Line) :
    (applyDate st l).timestamps = st.timestamps := by
  unfold applyDate; cases l.datematch <;> rfl

@[simp] theorem applyDate_previous (st : ScanState) (l : Line) :
    (applyDate st l).previous_timestamp = st.previous_timestamp := by
  unfold applyDate; cases l.datematch <;> rfl

@[simp] theorem applyDate_pos (st : ScanState) (l : Line) :
    (applyDate st l).drift_pos_data = st.drift_pos_data := by
  unfold applyDate; cases l.datematch <;> rfl

@[simp] theorem applyDate_found (st : ScanState) (l : Line) :
    (applyDate st l).drift_data_found = st.drift_data_found := by
  unfold applyDate; cases l.datematch <;> rfl

theorem applyDate_dateCtx (st : ScanState) (l : Line) :
    (applyDate st l).dateCtx =
      match l.datematch with
      | none => st.dateCtx
      | some d => some d := by
  unfold applyDate; cases l.datematch <;> rfl

@[simp] theorem applyDate_dateCtx_none (st : ScanState) (l : Line)
    (h : l.datematch = none) : (applyDate st l).dateCtx = st.dateCtx := by
  unfold applyDate; rw [h]

@[simp] theorem applyPos_wafer (st : ScanState) (l : Line) :
    (applyPos st l).wafer_centre = st.wafer_centre := by
  unfold applyPos; cases l.posmatch <;> rfl

@[simp] theorem applyPos_sizes (st : ScanState) (l : Line) :
    (applyPos st l).sizes = st.sizes := by
  unfold applyPos; cases l.posmatch <;> rfl

@[simp] theorem applyPos_timestamps (st : ScanState) (l : Line) :
    (applyPos st l).timestamps = st.timestamps := by
  unfold applyPos; cases l.posmatch <;> rfl

@[simp] theorem applyPos_previous (st : ScanState) (l : Line) :
    (applyPos st l).previous_timestamp = st.previous_timestamp := by
  unfold applyPos; cases l.posmatch <;> rfl

@[simp] theorem applyPos_found (st : ScanState) (l : Line) :
    (applyPos st l).drift_data_found = st.drift_data_found := by
  unfold applyPos; cases l.posmatch <;> rfl

@[simp] theorem applyPos_dateCtx (st : ScanState) (l : Line) :
    (applyPos st l).dateCtx = st.dateCtx := by
  unfold applyPos; cases l.posmatch <;> rfl

@[simp] theorem applyPos_dxdt (st : ScanState) (l : Line) :
    (applyPos st l).dxdt_values = st.dxdt_values := by
  unfold applyPos; cases l.posmatch <;> rfl

theorem applyPos_pos (st : ScanState) (l : Line) :
    (applyPos st l).drift_pos_data =
      st.drift_pos_data ++
        (match l.posmatch with
         | none => []
         | some p => [(p.block, p.x, p.y)]) := by
  unfold applyPos; cases l.posmatch <;> simp

theorem processLine_ok_pos {st st' : ScanState} {l : Line}
    (h : processLine st l = .ok st') :
    st'.drift_pos_data = st.drift_pos_data ++
      (match l.posmatch with
       | none => []
       | some p => [(p.block, p.x, p.y)]) := by
  rcases processLine_ok_iff.mp h with ⟨st2, hdr, rfl⟩
  rw [applyPos_pos]
  rcases applyDrift_ok_inv hdr with ⟨hm, rfl⟩ | ⟨g, d, c, hg, hd, hc, rfl⟩ <;> simp

theorem processLine_ok_found {st st' : ScanState} {l : Line}
    (h : processLine st l = .ok st') :
    st'.drift_data_found = (st.drift_data_found || l.driftmatch.isSome) := by
  rcases processLine_ok_iff.mp h with ⟨st2, hdr, rfl⟩
  rw [applyPos_found]
  rcases applyDrift_ok_inv hdr with ⟨hm, rfl⟩ | ⟨g, d, c, hg, hd, hc, rfl⟩
  · simp [hm]
  · simp [hg]

theorem processLine_ok_dateCtx {st st' : ScanState} {l : Line}
    (h : processLine st l = .ok st') :
    st'.dateCtx =
      match l.datematch with
      | none => st.dateCtx
      | some d => some d := by
  rcases processLine_ok_iff.mp h with ⟨st2, hdr, rfl⟩
  rw [applyPos_dateCtx]
  rcases applyDrift_ok_inv hdr with ⟨hm, rfl⟩ | ⟨g, d, c, hg, hd, hc, rfl⟩ <;>
    rw [applyDate_dateCtx] <;> cases l.datematch <;> simp

theorem processLine_ok_wafer {st st' : ScanState} {l : Line}
    (h : processLine st l = .ok st') :
    st'.wafer_centre =
      (match l.centrematch with
       | none => st.wafer_centre
       | some c => [c.g1 / 1000, c.g2 / 1000]) ∧
    st'.sizes =
      (match l.centrematch with
       | none => st.sizes
       | some c => some (c.g3 / 1000, c.g4 / 1000)) := by
  have := processLine_ok_wafer_centre h
  rw [this.1, this.2]
  unfold applyCentre
  cases l.centrematch <;> simp

theorem processLine_ok_timestamps {st st' : ScanState} {l : Line}
    (h : processLine st l = .ok st') :
    (l.driftmatch = none ∧ st'.timestamps = st.timestamps ∧
      st'.previous_timestamp = st.previous_timestamp) ∨
    (∃ g d c, l.driftmatch = some g ∧
      (applyDate (applyCentre st l) l).dateCtx = some d ∧
      strptime d.dyear d.dmonth d.dday g.hour g.minute = some c ∧
      st'.timestamps = st.timestamps ++ [adjustTs st.previous_timestamp c] ∧
      st'.previous_timestamp = some (adjustTs st.previous_timestamp c)) := by
  rcases processLine_ok_iff.mp h with ⟨st2, hdr, rfl⟩
  rcases applyDrift_ok_inv hdr with ⟨hm, rfl⟩ | ⟨g, d, c, hg, hd, hc, rfl⟩
  · exact Or.inl ⟨hm, by simp, by simp⟩
  · exact Or.inr ⟨g, d, c, hg, hd, hc, by simp, by simp⟩

/-! ## Whole-scan characterizations -/

theorem runScan_ok_found :
    ∀ (lines : List Line) {st st' : ScanState},
    runScan st lines = .ok st' →
    st'.drift_data_found =
      (st.drift_data_found || lines.any (fun l => l.driftmatch.isSome))
  | [], st, st', h => by
    simp only [runScan, Except.ok.injEq] at h
    subst h; simp
  | l :: ls, st, st', h => by
    rw [runScan_cons] at h
    cases hp : processLine st l with
    | error e => rw [hp] at h; exact absurd h (by simp)
    | ok st1 =>
      rw [hp] at h
      have ih := runScan_ok_found ls h
      rw [ih, processLine_ok_found hp]
      simp [Bool.or_assoc]

theorem runScan_ok_pos :
    ∀ (lines : List Line) {st st' : ScanState},
    runScan st lines = .ok st' →
    st'.drift_pos_data = st.drift_pos_data ++
      (lines.filterMap Line.posmatch).map (fun p => (p.block, p.x, p.y))
  | [], st, st', h => by
    simp only [runScan, Except.ok.injEq] at h
    subst h; simp
  | l :: ls, st, st', h => by
    rw [runScan_cons] at h
    cases hp : processLine st l with
    | error e => rw [hp] at h; exact absurd h (by simp)
    | ok st1 =>
      rw [hp] at h
      have ih := runScan_ok_pos ls h
      rw [ih, processLine_ok_pos hp]
      cases hm : l.posmatch <;> simp [List.filterMap_cons, hm]

theorem runScan_ok_wafer :
    ∀ (lines : List Line) {st st' : ScanState},
    runScan st lines = .ok st' →
    st'.wafer_centre =
      (lines.filterMap Line.centrematch).foldl
        (fun _ c => [c.g1 / 1000, c.g2 / 1000]) st.wafer_centre ∧
    st'.sizes =
      (lines.filterMap Line.centrematch).foldl
        (fun _ c => some (c.g3 / 1000, c.g4 / 1000)) st.sizes
  | [], st, st', h => by
    simp only [runScan, Except.ok.injEq] at h
    subst h; simp
  | l :: ls, st, st', h => by
    rw [runScan_cons] at h
    cases hp : processLine st l with
    | error e => rw [hp] at h; exact absurd h (by simp)
    | ok st1 =>
      rw [hp] at h
      have ih := runScan_ok_wafer ls h
      have hw := processLine_ok_wafer hp
      cases hm : l.centrematch with
      | none =>
        simp only [hm] at hw
        simp only [List.filterMap_cons, hm]
        exact ⟨by rw [ih.1, hw.1], by rw [ih.2, hw.2]⟩
      | some c =>
        simp only [hm] at hw
        simp only [List.filterMap_cons, hm, List.foldl_cons]
        exact ⟨by rw [ih.1, hw.1], by rw [ih.2, hw.2]⟩

theorem runScan_ok_dateCtx_none :
    ∀ (lines : List Line) {st st' : ScanState},
    (∀ l ∈ lines, l.datematch = none) →
    runScan st lines = .ok st' →
    st'.dateCtx = st.dateCtx
  | [], st, st', _, h => by
    simp only [runScan, Except.ok.injEq] at h
    subst h; rfl
  | l :: ls, st, st', hnd, h => by
    rw [runScan_cons] at h
    cases hp : processLine st l with
    | error e => rw [hp] at h; exact absurd h (by simp)
    | ok st1 =>
      rw [hp] at h
      have ih := runScan_ok_dateCtx_none ls (fun x hx => hnd x (by simp [hx])) h
      rw [ih, processLine_ok_dateCtx hp, hnd l (by simp)]

theorem runScan_no_drift_ok :
    ∀ (lines : List Line) (st : ScanState),
    (∀ l ∈ lines, l.driftmatch = none) →
    runScan st lines = .ok ((lines.foldl
      (fun s l => applyPos (applyDate (applyCentre s l) l) l) st))
  | [], st, _ => rfl
  | l :: ls, st, hnd => by
    have hp : processLine st l =
        .ok (applyPos (applyDate (applyCentre st l) l) l) := by
      unfold processLine
      rw [applyDrift_none (hnd l (by simp))]
    rw [runScan_cons, hp, List.foldl_cons]
    exact runScan_no_drift_ok ls _ (fun x hx => hnd x (by simp [hx]))

/-- A successful `strptime` under date context `d` yields exactly the
candidate `mkCand d g`, whose time-of-day part is in `[0, 1440)`. -/
theorem strptime_eq_mkCand {d : DateGroups} {g : DriftGroups} {c : ℤ}
    (h : strptime d.dyear d.dmonth d.dday g.hour g.minute = some c) :
    c = mkCand d g ∧ 0 ≤ todM g ∧ todM g < 1440 := by
  unfold strptime at h
  cases hm : monthNum d.dmonth with
  | none => rw [hm] at h; exact absurd h (by simp)
  | some m =>
    rw [hm] at h
    dsimp only at h
    by_cases hcond : 1 ≤ d.dyear ∧ d.dyear ≤ 9999 ∧ 1 ≤ d.dday ∧
        d.dday ≤ daysInMonth d.dyear m ∧ g.hour ≤ 23 ∧ g.minute ≤ 59
    · rw [if_pos hcond] at h
      simp only [Option.some.injEq] at h
      subst h
      refine ⟨?_, ?_, ?_⟩
      · unfold mkCand dateOrd todM
        rw [hm]
        push_cast
        ring
      · unfold todM; positivity
      · unfold todM
        have h1 : g.hour ≤ 23 := hcond.2.2.2.2.1
        have h2 : g.minute ≤ 59 := hcond.2.2.2.2.2
        have : (g.hour : ℤ) ≤ 23 := by exact_mod_cast h1
        have : (g.minute : ℤ) ≤ 59 := by exact_mod_cast h2
        omega
    · rw [if_neg hcond] at h
      exact absurd h (by simp)

theorem reconstructFrom_cons (prev : Option ℤ) (c : ℤ) (cs : List ℤ) :
    reconstructFrom prev (c :: cs) =
      adjustTs prev c :: reconstructFrom (some (adjustTs prev c)) cs := rfl

/-- Scanning lines that never re-match the date pattern, from a state whose
date context is `d`, appends exactly the reconstructed timestamps of the
drift-line candidates `mkCand d g`; and every drift line that survived
`strptime` has its time of day in `[0, 1440)`. -/
theorem runScan_timestamps_const_date {d : DateGroups} :
    ∀ (lines : List Line) {st st' : ScanState},
    (∀ l ∈ lines, l.datematch = none) →
    st.dateCtx = some d →
    runScan st lines = .ok st' →
    st'.timestamps = st.timestamps ++
      reconstructFrom st.previous_timestamp
        ((lines.filterMap Line.driftmatch).map (mkCand d)) ∧
    ∀ g ∈ lines.filterMap Line.driftmatch, 0 ≤ todM g ∧ todM g < 1440
  | [], st, st', _, _, h => by
    simp only [runScan, Except.ok.injEq] at h
    subst h
    simp [reconstructFrom]
  | l :: ls, st, st', hnd, hctx, h => by
    rw [runScan_cons] at h
    cases hp : processLine st l with
    | error e => rw [hp] at h; exact absurd h (by simp)
    | ok st1 =>
      rw [hp] at h
      have hctx1 : st1.dateCtx = some d := by
        rw [processLine_ok_dateCtx hp, hnd l (by simp)]
        exact hctx
      have ih := runScan_timestamps_const_date ls
        (fun x hx => hnd x (by simp [hx])) hctx1 h
      rcases processLine_ok_timestamps hp with
        ⟨hm, ht, hprev⟩ | ⟨g, d', c, hg, hd', hc, ht, hprev⟩
      · constructor
        · rw [ih.1, ht, hprev]
          simp [List.filterMap_cons, hm]
        · intro g hgmem
          exact ih.2 g (by simpa [List.filterMap_cons, hm] using hgmem)
      · have hdd : d' = d := by
          rw [applyDate_dateCtx_none _ _ (hnd l (by simp)),
            applyCentre_dateCtx] at hd'
          rw [hctx] at hd'
          exact (Option.some.injEq _ _ ▸ hd').symm
        subst hdd
        have hcand := strptime_eq_mkCand hc
        constructor
        · rw [ih.1, ht, hprev]
          simp only [List.filterMap_cons, hg, List.map_cons,
            reconstructFrom_cons, ← hcand.1]
          simp [List.append_assoc]
        · intro g' hgmem
          rw [List.filterMap_cons, hg] at hgmem
          rcases List.mem_cons.mp hgmem with rfl | hmem
          · exact ⟨hcand.2.1, hcand.2.2⟩
          · exact ih.2 g' hmem

/-- After the rollover has fired (cursor `q` at least one day above the base),
every further same-day candidate is also adjusted, and the outputs stay in
order provided no further descent occurs. -/
theorem chain_after_rollover :
    ∀ (cs : List ℤ) (q base : ℤ),
    (∀ c ∈ cs, base ≤ c ∧ c < base + 1440) →
    base + 1440 ≤ q →
    descents ((q - 1440) :: cs) = 0 →
    List.Chain' (· ≤ ·) (q :: reconstructFrom (some q) cs)
  | [], q, base, _, _, _ => by simp [reconstructFrom]
  | c :: cs, q, base, hb, hq, hdesc => by
    have hcb := hb c (by simp)
    have hlt : c < q := lt_of_lt_of_le hcb.2 hq
    have hadj : adjustTs (some q) c = c + 1440 := by
      simp [adjustTs, hlt]
    rw [reconstructFrom_cons, hadj]
    have hdesc' : descents ((q - 1440) :: c :: cs) =
        (if c < q - 1440 then 1 else 0) + descents (c :: cs) := rfl
    rw [hdesc'] at hdesc
    have h1 : ¬ c < q - 1440 := by
      by_contra hcon
      rw [if_pos hcon] at hdesc
      omega
    rw [if_neg h1] at hdesc
    rw [List.chain'_cons]
    refine ⟨by omega, ?_⟩
    have := chain_after_rollover cs (c + 1440) base
      (fun x hx => hb x (by simp [hx])) (by omega)
      (by simpa using hdesc)
    simpa using this

/-- Before any rollover: as long as the candidates stay within the base day
and at most one descent occurs, the corrected sequence stays in order. -/
theorem chain_before_rollover :
    ∀ (cs : List ℤ) (p base : ℤ),
    (∀ c ∈ cs, base ≤ c ∧ c < base + 1440) →
    base ≤ p → p < base + 1440 →
    descents (p :: cs) ≤ 1 →
    List.Chain' (· ≤ ·) (p :: reconstructFrom (some p) cs)
  | [], p, base, _, _, _, _ => by simp [reconstructFrom]
  | c :: cs, p, base, hb, hbp, hpb, hdesc => by
    have hcb := hb c (by simp)
    have hdesc' : descents (p :: c :: cs) =
        (if c < p then 1 else 0) + descents (c :: cs) := rfl
    rw [hdesc'] at hdesc
    by_cases hcp : c < p
    · rw [if_pos hcp] at hdesc
      have hzero : descents (c :: cs) = 0 := by omega
      have hadj : adjustTs (some p) c = c + 1440 := by
        simp [adjustTs, hcp]
      rw [reconstructFrom_cons, hadj, List.chain'_cons]
      refine ⟨by omega, ?_⟩
      exact chain_after_rollover cs (c + 1440) base
        (fun x hx => hb x (by simp [hx])) (by omega) (by simpa using hzero)
    · rw [if_neg hcp] at hdesc
      have hadj : adjustTs (some p) c = c := by
        simp [adjustTs, hcp]
      rw [reconstructFrom_cons, hadj, List.chain'_cons]
      refine ⟨by omega, ?_⟩
      exact chain_before_rollover cs c base
        (fun x hx => hb x (by simp [hx])) hcb.1 hcb.2 (by omega)

/-- The reconstructed sequence is monotonically non-decreasing whenever all
candidates lie within one day of a common base and the candidate sequence
descends at most once. -/
theorem chain_reconstructFrom_none (cs : List ℤ) (base : ℤ)
    (hb : ∀ c ∈ cs, base ≤ c ∧ c < base + 1440)
    (hdesc : descents cs ≤ 1) :
    List.Chain' (· ≤ ·) (reconstructFrom none cs) := by
  cases cs with
  | nil => simp [reconstructFrom]
  | cons c cs =>
    have hcb := hb c (by simp)
    have hadj : adjustTs none c = c := rfl
    rw [reconstructFrom_cons, hadj]
    exact chain_before_rollover cs c base
      (fun x hx => hb x (by simp [hx])) hcb.1 hcb.2 hdesc

/-- `descents` only depends on the successive differences: shifting every
element by a constant leaves it unchanged. -/
theorem descents_map_add (K : ℤ) :
    ∀ l : List ℤ, descents (l.map (fun t => K + t)) = descents l
  | [] => rfl
  | [_] => rfl
  | a :: b :: rest => by
    have ih := descents_map_add K (b :: rest)
    simp only [List.map_cons] at ih ⊢
    have h1 : descents ((K + a) :: (K + b) :: rest.map (fun t => K + t)) =
        (if K + b < K + a then 1 else 0) +
          descents ((K + b) :: rest.map (fun t => K + t)) := rfl
    have h2 : descents (a :: b :: rest) =
        (if b < a then 1 else 0) + descents (b :: rest) := rfl
    rw [h1, h2, ih]
    congr 1
    by_cases hba : b < a
    · rw [if_pos hba, if_pos (by omega)]
    · rw [if_neg hba, if_neg (by omega)]

theorem runPipeline_success_inv {st : ScanState} {out : Output}
    (h : runPipeline st = .success out) :
    st.drift_data_found = true ∧
    ∃ rel, relative_drift_pos_data_of st.wafer_centre
        (sorted_drift_pos_data st.drift_pos_data) = .ok rel ∧
      out.sorted_relative_drift_pos_data = List.insertionSort posKeyLe rel ∧
      out.wafer_centre = st.wafer_centre ∧
      out.dxdt_values = st.dxdt_values ∧
      out.dydt_values = st.dydt_values ∧
      pyMinKey (fun q => |q|) st.dxdt_values = some out.min_dx ∧
      pyMaxKey (fun q => |q|) st.dxdt_values = some out.max_dx ∧
      pyMinKey (fun q => |q|) st.dydt_values = some out.min_dy ∧
      pyMaxKey (fun q => |q|) st.dydt_values = some out.max_dy ∧
      st.sizes = some (out.size_x, out.size_y) := by
  unfold runPipeline at h
  by_cases hfound : st.drift_data_found = false
  · rw [if_pos hfound] at h
    exact absurd h (by simp)
  · rw [if_neg hfound] at h
    refine ⟨by simpa using hfound, ?_⟩
    cases hrel : relative_drift_pos_data_of st.wafer_centre
        (sorted_drift_pos_data st.drift_pos_data) with
    | error e => rw [hrel] at h; exact absurd h (by simp)
    | ok rel =>
      rw [hrel] at h
      refine ⟨rel, rfl, ?_⟩
      cases hsz : st.sizes with
      | none => rw [hsz] at h; exact absurd h (by simp)
      | some sxy =>
        rw [hsz] at h
        obtain ⟨sx, sy⟩ := sxy
        cases hts : st.timestamps with
        | nil => rw [hts] at h; exact absurd h (by simp)
        | cons t0 ts =>
          rw [hts] at h
          cases hm1 : pyMinKey (fun q => |q|) st.dxdt_values with
          | none => rw [hm1] at h; exact absurd h (by simp)
          | some mindx =>
            rw [hm1] at h
            cases hm2 : pyMaxKey (fun q => |q|) st.dxdt_values with
            | none => rw [hm2] at h; exact absurd h (by simp)
            | some maxdx =>
              rw [hm2] at h
              cases hm3 : pyMinKey (fun q => |q|) st.dydt_values with
              | none => rw [hm3] at h; exact absurd h (by simp)
              | some mindy =>
                rw [hm3] at h
                cases hm4 : pyMaxKey (fun q => |q|) st.dydt_values with
                | none => rw [hm4] at h; exact absurd h (by simp)
                | some maxdy =>
                  rw [hm4] at h
                  simp only [ProgResult.success.injEq] at h
                  subst h
                  simp

/-- The pipeline after the scan can never produce the invalid-logfile
diagnostic: that check happens before scanning. -/
theorem runPipeline_ne_invalid (st : ScanState) :
    runPipeline st ≠ .invalidLogfile := by
  unfold runPipeline
  by_cases hfound : st.drift_data_found = false
  · rw [if_pos hfound]; simp
  · rw [if_neg hfound]
    cases relative_drift_pos_data_of st.wafer_centre
        (sorted_drift_pos_data st.drift_pos_data) with
    | error e => simp
    | ok rel =>
      cases st.sizes with
      | none => simp
      | some sxy =>
        obtain ⟨sx, sy⟩ := sxy
        cases st.timestamps with
        | nil => simp
        | cons t0 ts =>
          cases pyMinKey (fun q => |q|) st.dxdt_values <;>
            cases pyMaxKey (fun q => |q|) st.dxdt_values <;>
            cases pyMinKey (fun q => |q|) st.dydt_values <;>
            cases pyMaxKey (fun q => |q|) st.dydt_values <;>
            simp

/-- The pipeline reports "no drift calibration points" exactly when the scan
found none. -/
theorem runPipeline_noDrift_iff (st : ScanState) :
    runPipeline st = .noDriftPoints ↔ st.drift_data_found = false := by
  constructor
  · intro h
    by_contra hfound
    unfold runPipeline at h
    rw [if_neg hfound] at h
    revert h
    cases relative_drift_pos_data_of st.wafer_centre
        (sorted_drift_pos_data st.drift_pos_data) with
    | error e => simp
    | ok rel =>
      cases st.sizes with
      | none => simp
      | some sxy =>
        obtain ⟨sx, sy⟩ := sxy
        cases st.timestamps with
        | nil => simp
        | cons t0 ts =>
          cases pyMinKey (fun q => |q|) st.dxdt_values <;>
            cases pyMaxKey (fun q => |q|) st.dxdt_values <;>
            cases pyMinKey (fun q => |q|) st.dydt_values <;>
            cases pyMaxKey (fun q => |q|) st.dydt_values <;>
            simp
  · intro h
    unfold runPipeline
    rw [if_pos h]

/-- With a two-element wafer-centre list the normalization loop succeeds and
subtracts the centre component-wise. -/
theorem relative_two (cx cy : ℚ) :
    ∀ l : List (ℕ × ℚ × ℚ),
    relative_drift_pos_data_of [cx, cy] l =
      .ok (l.map (fun t => (t.1, t.2.1 - cx, t.2.2 - cy)))
  | [] => rfl
  | t :: rest => by
    have ih := relative_two cx cy rest
    unfold relative_drift_pos_data_of
    rw [ih]
    rfl

/-- With the initial, empty wafer-centre list any non-empty block list makes
the normalization loop raise `IndexError` at its first iteration. -/
theorem relative_empty_err (t : ℕ × ℚ × ℚ) (rest : List (ℕ × ℚ × ℚ)) :
    relative_drift_pos_data_of [] (t :: rest) = .error .indexError := rfl

/-! ## Properties of Python `min(..., key=...)` / `max(..., key=...)` -/

theorem minFold_le (key : ℚ → ℚ) :
    ∀ (xs : List ℚ) (b : ℚ),
    key (xs.foldl (fun b a => if key a < key b then a else b) b) ≤ key b ∧
    ∀ x ∈ xs, key (xs.foldl (fun b a => if key a < key b then a else b) b) ≤ key x
  | [], b => by simp
  | x :: xs, b => by
    have ih := minFold_le key xs (if key x < key b then x else b)
    rw [List.foldl_cons]
    refine ⟨?_, ?_⟩
    · refine le_trans ih.1 ?_
      by_cases hx : key x < key b
      · rw [if_pos hx]; exact le_of_lt hx
      · rw [if_neg hx]
    · intro y hy
      rcases List.mem_cons.mp hy with rfl | hmem
      · refine le_trans ih.1 ?_
        by_cases hx : key y < key b
        · rw [if_pos hx]
        · rw [if_neg hx]; exact le_of_not_lt hx
      · exact ih.2 y hmem

theorem minFold_mem :
    ∀ (key : ℚ → ℚ) (xs : List ℚ) (b : ℚ),
    xs.foldl (fun b a => if key a < key b then a else b) b ∈ b :: xs
  | _, [], b => by simp
  | key, x :: xs, b => by
    rw [List.foldl_cons]
    have ih := minFold_mem key xs (if key x < key b then x else b)
    rcases List.mem_cons.mp ih with heq | hmem
    · rw [heq]
      by_cases hx : key x < key b
      · rw [if_pos hx]; simp
      · rw [if_neg hx]; simp
    · simp [hmem]

theorem minFold_first (key : ℚ → ℚ) :
    ∀ (xs : List ℚ) (b : ℚ),
    List.find?
      (fun a => decide (key a ≤
        key (xs.foldl (fun b a => if key a < key b then a else b) b)))
      (b :: xs) =
      some (xs.foldl (fun b a => if key a < key b then a else b) b)
  | [], b => by simp
  | x :: xs, b => by
    rw [List.foldl_cons]
    have ih := minFold_first key xs (if key x < key b then x else b)
    by_cases hx : key x < key b
    · rw [if_pos hx] at ih ⊢
      have hrb : key (xs.foldl (fun b a => if key a < key b then a else b) x)
          ≤ key x := (minFold_le key xs x).1
      have hpb : ¬ (key b ≤
          key (xs.foldl (fun b a => if key a < key b then a else b) x)) := by
        intro hcon; exact absurd (le_trans hcon hrb) (not_le.mpr hx)
      rw [List.find?_cons_of_neg _ (by simpa using hpb)]
      exact ih
    · rw [if_neg hx] at ih ⊢
      by_cases hpb : key b ≤
          key (xs.foldl (fun b a => if key a < key b then a else b) b)
      · rw [List.find?_cons_of_pos _ (by simpa using hpb)] at ih ⊢
        exact ih
      · rw [List.find?_cons_of_neg _ (by simpa using hpb)] at ih
        rw [List.find?_cons_of_neg _ (by simpa using hpb)]
        have hpx : ¬ (key x ≤
            key (xs.foldl (fun b a => if key a < key b then a else b) b)) := by
          intro hcon
          exact hpb (le_trans (le_of_not_lt hx) hcon)
        rw [List.find?_cons_of_neg _ (by simpa using hpx)]
        exact ih

theorem pyMinKey_spec {key : ℚ → ℚ} {l : List ℚ} {m : ℚ}
    (h : pyMinKey key l = some m) :
    m ∈ l ∧ ∀ x ∈ l, key m ≤ key x := by
  cases l with
  | nil => exact absurd h (by simp [pyMinKey])
  | cons b xs =>
    unfold pyMinKey at h
    simp only [Option.some.injEq] at h
    subst h
    refine ⟨minFold_mem key xs b, ?_⟩
    intro x hx
    rcases List.mem_cons.mp hx with rfl | hmem
    · exact (minFold_le key xs x).1
    · exact (minFold_le key xs b).2 x hmem

theorem pyMinKey_first {key : ℚ → ℚ} {l : List ℚ} {m : ℚ}
    (h : pyMinKey key l = some m) :
    l.find? (fun a => decide (key a ≤ key m)) = some m := by
  cases l with
  | nil => exact absurd h (by simp [pyMinKey])
  | cons b xs =>
    unfold pyMinKey at h
    simp only [Option.some.injEq] at h
    subst h
    exact minFold_first key xs b

theorem maxFold_ge (key : ℚ → ℚ) :
    ∀ (xs : List ℚ) (b : ℚ),
    key b ≤ key (xs.foldl (fun b a => if key b < key a then a else b) b) ∧
    ∀ x ∈ xs, key x ≤ key (xs.foldl (fun b a => if key b < key a then a else b) b)
  | [], b => by simp
  | x :: xs, b => by
    have ih := maxFold_ge key xs (if key b < key x then x else b)
    rw [List.foldl_cons]
    refine ⟨?_, ?_⟩
    · refine le_trans ?_ ih.1
      by_cases hx : key b < key x
      · rw [if_pos hx]; exact le_of_lt hx
      · rw [if_neg hx]
    · intro y hy
      rcases List.mem_cons.mp hy with rfl | hmem
      · refine le_trans ?_ ih.1
        by_cases hx : key b < key y
        · rw [if_pos hx]
        · rw [if_neg hx]; exact le_of_not_lt hx
      · exact ih.2 y hmem

theorem maxFold_mem :
    ∀ (key : ℚ → ℚ) (xs : List ℚ) (b : ℚ),
    xs.foldl (fun b a => if key b < key a then a else b) b ∈ b :: xs
  | _, [], b => by simp
  | key, x :: xs, b => by
    rw [List.foldl_cons]
    have ih := maxFold_mem key xs (if key b < key x then x else b)
    rcases List.mem_cons.mp ih with heq | hmem
    · rw [heq]
      by_cases hx : key b < key x
      · rw [if_pos hx]; simp
      · rw [if_neg hx]; simp
    · simp [hmem]

theorem maxFold_first (key : ℚ → ℚ) :
    ∀ (xs : List ℚ) (b : ℚ),
    List.find?
      (fun a => decide (
        key (xs.foldl (fun b a => if key b < key a then a else b) b) ≤ key a))
      (b :: xs) =
      some (xs.foldl (fun b a => if key b < key a then a else b) b)
  | [], b => by simp
  | x :: xs, b => by
    rw [List.foldl_cons]
    have ih := maxFold_first key xs (if key b < key x then x else b)
    by_cases hx : key b < key x
    · rw [if_pos hx] at ih ⊢
      have hrb : key x ≤
          key (xs.foldl (fun b a => if key b < key a then a else b) x) :=
        (maxFold_ge key xs x).1
      have hpb : ¬ (key (xs.foldl (fun b a => if key b < key a then a else b) x)
          ≤ key b) := by
        intro hcon
        exact absurd (le_trans hrb hcon) (not_le.mpr hx)
      rw [List.find?_cons_of_neg _ (by simpa using hpb)]
      exact ih
    · rw [if_neg hx] at ih ⊢
      by_cases hpb : key (xs.foldl (fun b a => if key b < key a then a else b) b)
          ≤ key b
      · rw [List.find?_cons_of_pos _ (by simpa using hpb)] at ih ⊢
        exact ih
      · rw [List.find?_cons_of_neg _ (by simpa using hpb)] at ih
        rw [List.find?_cons_of_neg _ (by simpa using hpb)]
        have hpx : ¬ (key (xs.foldl (fun b a => if key b < key a then a else b) b)
            ≤ key x) := by
          intro hcon
          exact hpb (le_trans hcon (le_of_not_lt hx))
        rw [List.find?_cons_of_neg _ (by simpa using hpx)]
        exact ih

theorem pyMaxKey_spec {key : ℚ → ℚ} {l : List ℚ} {m : ℚ}
    (h : pyMaxKey key l = some m) :
    m ∈ l ∧ ∀ x ∈ l, key x ≤ key m := by
  cases l with
  | nil => exact absurd h (by simp [pyMaxKey])
  | cons b xs =>
    unfold pyMaxKey at h
    simp only [Option.some.injEq] at h
    subst h
    refine ⟨maxFold_mem key xs b, ?_⟩
    intro x hx
    rcases List.mem_cons.mp hx with rfl | hmem
    · exact (maxFold_ge key xs x).1
    · exact (maxFold_ge key xs b).2 x hmem

theorem pyMaxKey_first {key : ℚ → ℚ} {l : List ℚ} {m : ℚ}
    (h : pyMaxKey key l = some m) :
    l.find? (fun a => decide (key m ≤ key a)) = some m := by
  cases l with
  | nil => exact absurd h (by simp [pyMaxKey])
  | cons b xs =>
    unfold pyMaxKey at h
    simp only [Option.some.injEq] at h
    subst h
    exact maxFold_first key xs b

/-- Subtracting a constant vector preserves the `(block, x, y)` key order. -/
theorem posKeyLe_sub (cx cy : ℚ) (a b : ℕ × ℚ × ℚ) (h : posKeyLe a b) :
    posKeyLe (a.1, a.2.1 - cx, a.2.2 - cy) (b.1, b.2.1 - cx, b.2.2 - cy) := by
  unfold posKeyLe at h ⊢
  dsimp only
  rcases h with h | ⟨h1, h2 | ⟨h2, h3⟩⟩
  · exact Or.inl h
  · exact Or.inr ⟨h1, Or.inl (by exact sub_lt_sub_right h2 cx)⟩
  · exact Or.inr ⟨h1, Or.inr ⟨by rw [h2], sub_le_sub_right h3 cy⟩⟩

/-- A key-sorted block list stays key-sorted after subtracting a constant
vector from the coordinates. -/
theorem sorted_map_sub (cx cy : ℚ) (l : List (ℕ × ℚ × ℚ))
    (h : List.Sorted posKeyLe l) :
    List.Sorted posKeyLe
      (l.map (fun t => (t.1, t.2.1 - cx, t.2.2 - cy))) :=
  List.Pairwise.map _ (fun a b hab => posKeyLe_sub cx cy a b hab) h

/-- C1: For every drift-rate sample, the reconstructed timestamp is built
from the most-recently-seen year/month/day, the matched hour and minute, and
seconds = 0 (this is the `strptime` hypothesis: the candidate `c` is the
datetime of the current date context at hour:minute:00); if that candidate is
strictly earlier than the previous sample's (possibly adjusted) timestamp,
24 hours (= 24·60 minutes) are added.  In particular, for two consecutive
samples at 23:58 and 00:02 with an intervening date rollover, the second
reconstructed timestamp is exactly 4 minutes after the first. -/
theorem c1_timestamp_reconstruction :
    (∀ (st : ScanState) (l : Line) (g : DriftGroups) (d : DateGroups) (c : ℤ),
      l.driftmatch = some g →
      (applyDate (applyCentre st l) l).dateCtx = some d →
      strptime d.dyear d.dmonth d.dday g.hour g.minute = some c →
      ∃ st', processLine st l = .ok st' ∧
        st'.timestamps = st.timestamps ++
          [match st.previous_timestamp with
           | some p => if c < p then c + 24 * 60 else c
           | none => c] ∧
        st'.previous_timestamp =
          some (match st.previous_timestamp with
                | some p => if c < p then c + 24 * 60 else c
                | none => c)) ∧
    (∃ (st : ScanState) (t : ℤ),
      runScan initState rolloverLog = .ok st ∧ st.timestamps = [t, t + 4]) := by
  constructor
  · intro st l g d c hg hd hc
    have hstep := @applyDrift_some (applyDate (applyCentre st l) l) l g d c
      hg hd hc
    refine ⟨_, processLine_ok_iff.mpr ⟨_, hstep, rfl⟩, ?_, ?_⟩
    · rw [applyPos_timestamps]
      show (applyDate (applyCentre st l) l).timestamps ++
        [adjustTs (applyDate (applyCentre st l) l).previous_timestamp c] = _
      rw [applyDate_timestamps, applyCentre_timestamps,
        applyDate_previous, applyCentre_previous]
      rfl
    · rw [applyPos_previous]
      show some (adjustTs (applyDate (applyCentre st l) l).previous_timestamp c) = _
      rw [applyDate_previous, applyCentre_previous]
      rfl
  · exact ⟨_, 1064456638, rfl, by decide⟩

/-- Witness for C1: instantiated at a state carrying the sample date context
and the 23:58 drift line; all hypotheses are discharged by `rfl`/`decide`. -/
theorem c1_timestamp_reconstruction_witness :
    ∃ st', processLine initWithDate (driftLine sampleDrift2358) = .ok st' ∧
      st'.timestamps = initWithDate.timestamps ++
        ([match initWithDate.previous_timestamp with
          | some p => if (1064456638 : ℤ) < p then 1064456638 + 24 * 60 else 1064456638
          | none => 1064456638] : List ℤ) ∧
      st'.previous_timestamp =
        some (match initWithDate.previous_timestamp with
              | some p => if (1064456638 : ℤ) < p then 1064456638 + 24 * 60 else 1064456638
              | none => (1064456638 : ℤ)) :=
  c1_timestamp_reconstruction.1 initWithDate (driftLine sampleDrift2358)
    sampleDrift2358 sampleDate 1064456638 rfl rfl (by decide)

/-- C2: For every log file in which the drift samples share a single date
context (one date line up front, never re-matched afterwards) and the
time-of-day decreases between consecutive samples at most once, the sequence
of corrected timestamps produced by the timestamp reconstructor, in order of
appearance in the file, is monotonically non-decreasing. -/
theorem c2_monotone_timestamps (d : DateGroups) (rest : List Line)
    (st : ScanState)
    (hnodates : ∀ l ∈ rest, l.datematch = none)
    (hscan : runScan initState (dateLine d :: rest) = .ok st)
    (hdesc : descents ((rest.filterMap Line.driftmatch).map todM) ≤ 1) :
    List.Chain' (· ≤ ·) st.timestamps := by
  have hp : processLine initState (dateLine d) = .ok
      (applyPos (applyDate (applyCentre initState (dateLine d)) (dateLine d))
        (dateLine d)) := by
    unfold processLine
    rw [applyDrift_none rfl]
  rw [runScan_cons, hp] at hscan
  have hctx : (applyPos (applyDate (applyCentre initState (dateLine d))
      (dateLine d)) (dateLine d)).dateCtx = some d := rfl
  have hbridge := runScan_timestamps_const_date rest hnodates hctx hscan
  have hts : st.timestamps = reconstructFrom none
      ((rest.filterMap Line.driftmatch).map (mkCand d)) := by
    rw [hbridge.1]; rfl
  rw [hts]
  have hmap : (rest.filterMap Line.driftmatch).map (mkCand d) =
      ((rest.filterMap Line.driftmatch).map todM).map
        (fun t => 1440 * dateOrd d + t) := by
    simp [List.map_map, Function.comp_def, mkCand]
  refine chain_reconstructFrom_none _ (1440 * dateOrd d) ?_ ?_
  · intro c hc
    obtain ⟨g, hg, rfl⟩ := List.mem_map.mp hc
    have hb := hbridge.2 g hg
    unfold mkCand
    omega
  · rw [hmap, descents_map_add]
    exact hdesc

/-- Witness for C2: the midnight-straddling sample log (23:58 then 00:02,
one descent) yields a non-decreasing corrected timestamp sequence. -/
theorem c2_monotone_timestamps_witness :
    ∃ st, runScan initState (dateLine sampleDate :: rolloverRest) = .ok st ∧
      List.Chain' (· ≤ ·) st.timestamps :=
  ⟨_, rfl, c2_monotone_timestamps sampleDate rolloverRest _ (by decide) rfl
    (by decide)⟩

/-- C3: For every log with a single wafer-centre line specifying centre
`(Cx, Cy)` in micrometers and containing a calibration block at `(X, Y)` in
millimeters, every successful run reports the relative position
`(X - Cx/1000, Y - Cy/1000)` for that block: the centre is divided by 1000
on capture and subtracted component-wise from the block coordinates. -/
theorem c3_relative_position (fl : String) (lines : List Line) (out : Output)
    (c : CentreGroups) (p : PosGroups)
    (hc : lines.filterMap Line.centrematch = [c])
    (hp : p ∈ lines.filterMap Line.posmatch)
    (hrun : program fl lines = .success out) :
    (p.block, p.x - c.g1 / 1000, p.y - c.g2 / 1000) ∈
      out.sorted_relative_drift_pos_data := by
  unfold program at hrun
  by_cases hh : headerOk fl
  · rw [if_pos hh] at hrun
    cases hscan : runScan initState lines with
    | error e => rw [hscan] at hrun; exact absurd hrun (by simp)
    | ok st =>
      rw [hscan] at hrun
      have hwc : st.wafer_centre = [c.g1 / 1000, c.g2 / 1000] := by
        have := (runScan_ok_wafer lines hscan).1
        rw [hc] at this
        simpa using this
      have hpd : st.drift_pos_data =
          (lines.filterMap Line.posmatch).map (fun p => (p.block, p.x, p.y)) := by
        have := runScan_ok_pos lines hscan
        simpa [initState] using this
      obtain ⟨hfound, rel, hrel, hsr, -, -, -, -, -, -, -⟩ :=
        runPipeline_success_inv hrun
      rw [hwc, relative_two] at hrel
      simp only [Except.ok.injEq] at hrel
      subst hrel
      rw [hsr]
      rw [List.mem_insertionSort]
      rw [List.mem_map]
      refine ⟨(p.block, p.x, p.y), ?_, rfl⟩
      unfold sorted_drift_pos_data
      rw [List.mem_insertionSort, hpd, List.mem_map]
      exact ⟨p, hp, rfl⟩
  · rw [if_neg hh] at hrun
    exact absurd hrun (by simp)

/-- Witness for C3: on the concrete full log, block (10, 20) against centre
(1000, 2000) µm is reported at (10 - 1, 20 - 2). -/
theorem c3_relative_position_witness :
    ∃ out, program "JMAN LOGFILE" fullLog = .success out ∧
      (samplePos.block, samplePos.x - sampleCentre1.g1 / 1000,
        samplePos.y - sampleCentre1.g2 / 1000) ∈
        out.sorted_relative_drift_pos_data :=
  ⟨_, rfl, c3_relative_position "JMAN LOGFILE" fullLog _ sampleCentre1
    samplePos (by decide) (by decide) rfl⟩

/-- Counterexample to C4: on a log with two different wafer-centre lines the
centre and size used for normalization and plotting are those of the SECOND
(last) matching line, not the first: line 85 of the script overwrites
`wafer_centre` (and the sizes) on every match. -/
theorem c4_centre_first_match_counterexample :
    ∃ out, program "JMAN LOGFILE" twoCentreLog = .success out ∧
      out.wafer_centre = [sampleCentre2.g1 / 1000, sampleCentre2.g2 / 1000] ∧
      (out.size_x, out.size_y) =
        (sampleCentre2.g3 / 1000, sampleCentre2.g4 / 1000) ∧
      [sampleCentre2.g1 / 1000, sampleCentre2.g2 / 1000] ≠
        [sampleCentre1.g1 / 1000, sampleCentre1.g2 / 1000] ∧
      (sampleCentre2.g3 / 1000, sampleCentre2.g4 / 1000) ≠
        (sampleCentre1.g3 / 1000, sampleCentre1.g4 / 1000) :=
  ⟨_, rfl, rfl, rfl,
   by norm_num [sampleCentre1, sampleCentre2],
   by norm_num [sampleCentre1, sampleCentre2]⟩

/-- C4 amended: WaferGeometry is captured with LAST match wins: for every
log whose wafer-centre matches end with groups `c`, the centre and size used
for normalization and plotting are those of the last matching line; earlier
matches are overwritten. -/
theorem c4_centre_last_match_wins (fl : String) (lines : List Line)
    (out : Output) (cs : List CentreGroups) (c : CentreGroups)
    (hc : lines.filterMap Line.centrematch = cs ++ [c])
    (hrun : program fl lines = .success out) :
    out.wafer_centre = [c.g1 / 1000, c.g2 / 1000] ∧
    (out.size_x, out.size_y) = (c.g3 / 1000, c.g4 / 1000) := by
  unfold program at hrun
  by_cases hh : headerOk fl
  · rw [if_pos hh] at hrun
    cases hscan : runScan initState lines with
    | error e => rw [hscan] at hrun; exact absurd hrun (by simp)
    | ok st =>
      rw [hscan] at hrun
      have hw := runScan_ok_wafer lines hscan
      simp only [hc, List.foldl_append, List.foldl_cons, List.foldl_nil] at hw
      obtain ⟨-, rel, -, -, hwout, -, -, -, -, -, -, hsz⟩ :=
        runPipeline_success_inv hrun
      constructor
      · rw [hwout, hw.1]
      · rw [hw.2] at hsz
        simpa [Prod.ext_iff, eq_comm] using Option.some.inj hsz
  · rw [if_neg hh] at hrun
    exact absurd hrun (by simp)

/-- Witness for the amended C4, instantiated on the two-centre log. -/
theorem c4_centre_last_match_wins_witness :
    ∃ out, program "JMAN LOGFILE" twoCentreLog = .success out ∧
      out.wafer_centre = [sampleCentre2.g1 / 1000, sampleCentre2.g2 / 1000] ∧
      (out.size_x, out.size_y) =
        (sampleCentre2.g3 / 1000, sampleCentre2.g4 / 1000) :=
  ⟨_, rfl, c4_centre_last_match_wins "JMAN LOGFILE" twoCentreLog _
    [sampleCentre1] sampleCentre2 (by decide) rfl⟩

/-- C5: For every list of calibration blocks, sorting by the key
`(block_number, x, y)` and then subtracting the constant wafer-centre vector
yields a list that is already sorted by `(block_number, relative_x,
relative_y)`: re-sorting the relative results by the same key is the
identity, and (second conjunct, at the pipeline level) the relative-position
output order equals the absolute-position sort order. -/
theorem c5_sort_translation_invariant :
    (∀ (blocks : List (ℕ × ℚ × ℚ)) (cx cy : ℚ),
      ∃ rel, relative_drift_pos_data_of [cx, cy]
          (sorted_drift_pos_data blocks) = .ok rel ∧
        List.insertionSort posKeyLe rel = rel ∧
        rel = (sorted_drift_pos_data blocks).map
          (fun t => (t.1, t.2.1 - cx, t.2.2 - cy))) ∧
    (∀ (st : ScanState) (out : Output) (cx cy : ℚ),
      st.wafer_centre = [cx, cy] →
      runPipeline st = .success out →
      out.sorted_relative_drift_pos_data =
        (sorted_drift_pos_data st.drift_pos_data).map
          (fun t => (t.1, t.2.1 - cx, t.2.2 - cy))) := by
  have key : ∀ (blocks : List (ℕ × ℚ × ℚ)) (cx cy : ℚ),
      List.insertionSort posKeyLe
        ((sorted_drift_pos_data blocks).map
          (fun t => (t.1, t.2.1 - cx, t.2.2 - cy))) =
        (sorted_drift_pos_data blocks).map
          (fun t => (t.1, t.2.1 - cx, t.2.2 - cy)) := by
    intro blocks cx cy
    refine List.Sorted.insertionSort_eq ?_
    exact sorted_map_sub cx cy _
      (List.sorted_insertionSort posKeyLe blocks)
  constructor
  · intro blocks cx cy
    exact ⟨_, relative_two cx cy _, key blocks cx cy, rfl⟩
  · intro st out cx cy hwc hrun
    obtain ⟨-, rel, hrel, hsr, -, -, -, -, -, -, -, -⟩ :=
      runPipeline_success_inv hrun
    rw [hwc, relative_two] at hrel
    simp only [Except.ok.injEq] at hrel
    subst hrel
    rw [hsr, key]

/-- Witness for C5's pipeline conjunct, instantiated on the full sample
log. -/
theorem c5_sort_translation_invariant_witness :
    ∃ st out, runScan initState fullLog = .ok st ∧
      runPipeline st = .success out ∧
      out.sorted_relative_drift_pos_data =
        (sorted_drift_pos_data st.drift_pos_data).map
          (fun t => (t.1, t.2.1 - sampleCentre1.g1 / 1000,
            t.2.2 - sampleCentre1.g2 / 1000)) :=
  ⟨_, _, rfl, rfl,
   c5_sort_translation_invariant.2 _ _ (sampleCentre1.g1 / 1000)
     (sampleCentre1.g2 / 1000) rfl rfl⟩

/-- C6: For every input file whose (stripped) first line does not contain
the literal marker `JMAN LOGFILE`, the program terminates immediately with
the invalid-logfile diagnostic, performing no scanning, normalization, or
plot calls (the result is `invalidLogfile` regardless of the remaining
lines); for every file whose first line contains the marker, this check
passes (the result is never `invalidLogfile`). -/
theorem c6_header_check :
    (∀ (fl : String) (lines : List Line),
      listContains "JMAN LOGFILE".toList (pyStrip fl.toList) = false →
      program fl lines = .invalidLogfile) ∧
    (∀ (fl : String) (lines : List Line),
      listContains "JMAN LOGFILE".toList (pyStrip fl.toList) = true →
      program fl lines ≠ .invalidLogfile) := by
  constructor
  · intro fl lines h
    unfold program
    rw [if_neg (by unfold headerOk; rw [h]; simp)]
  · intro fl lines h
    unfold program
    rw [if_pos (by unfold headerOk; rw [h])]
    cases runScan initState lines with
    | error e => simp
    | ok st => exact runPipeline_ne_invalid st

/-- Witness for C6: the spec's example header `"SOME OTHER HEADER"` is
rejected; a marker-bearing header passes. -/
theorem c6_header_check_witness :
    program "SOME OTHER HEADER" [] = .invalidLogfile ∧
    program "JMAN LOGFILE beams v9_16" [] ≠ .invalidLogfile :=
  ⟨c6_header_check.1 "SOME OTHER HEADER" [] (by decide),
   c6_header_check.2 "JMAN LOGFILE beams v9_16" [] (by decide)⟩

/-- C7: For every log file with a valid header in which no line matches the
drift-rate pattern, the process reports "no drift calibration points found"
and terminates without producing any plots; conversely, if at least one line
matches the drift-rate pattern, this check passes (the result is never
`noDriftPoints`). -/
theorem c7_no_drift_check :
    (∀ (fl : String) (lines : List Line),
      headerOk fl = true →
      (∀ l ∈ lines, l.driftmatch = none) →
      program fl lines = .noDriftPoints) ∧
    (∀ (fl : String) (lines : List Line),
      headerOk fl = true →
      (∃ l ∈ lines, l.driftmatch ≠ none) →
      program fl lines ≠ .noDriftPoints) := by
  constructor
  · intro fl lines hh hnd
    unfold program
    rw [if_pos hh, runScan_no_drift_ok lines initState hnd]
    rw [runPipeline_noDrift_iff]
    rw [runScan_ok_found lines (runScan_no_drift_ok lines initState hnd)]
    simp only [initState, Bool.false_or]
    rw [List.any_eq_false]
    intro l hl
    simp [hnd l hl]
  · intro fl lines hh hex
    unfold program
    rw [if_pos hh]
    cases hscan : runScan initState lines with
    | error e => simp
    | ok st =>
      intro hcon
      have hfalse := (runPipeline_noDrift_iff st).mp hcon
      have := runScan_ok_found lines hscan
      rw [hfalse] at this
      simp only [initState, Bool.false_or] at this
      obtain ⟨l, hl, hld⟩ := hex
      have : lines.any (fun l => l.driftmatch.isSome) = true := by
        rw [List.any_eq_true]
        exact ⟨l, hl, by simpa [Option.isSome_iff_ne_none] using hld⟩
      simp_all

/-- Witness for C7: a date-only log triggers the no-drift exit; the rollover
log does not. -/
theorem c7_no_drift_check_witness :
    program "JMAN LOGFILE" [dateLine sampleDate] = .noDriftPoints ∧
    program "JMAN LOGFILE" rolloverLog ≠ .noDriftPoints :=
  ⟨c7_no_drift_check.1 "JMAN LOGFILE" [dateLine sampleDate] (by decide)
    (by decide),
   c7_no_drift_check.2 "JMAN LOGFILE" rolloverLog (by decide) (by decide)⟩

/-- C8: For every log file with a valid header, at least one drift-rate
line, at least one calibration-block line, and no line matching the
wafer-centre pattern, the run ends in an uncaught Python runtime error
(`IndexError` from indexing the empty `wafer_centre` list, or an earlier
error inside the scan) instead of producing output. -/
theorem c8_missing_centre_crash (fl : String) (lines : List Line)
    (hh : headerOk fl = true)
    (hdrift : ∃ l ∈ lines, l.driftmatch ≠ none)
    (hpos : ∃ l ∈ lines, l.posmatch ≠ none)
    (hnoc : ∀ l ∈ lines, l.centrematch = none) :
    ∃ e, program fl lines = .pyError e := by
  unfold program
  rw [if_pos hh]
  cases hscan : runScan initState lines with
  | error e => exact ⟨e, rfl⟩
  | ok st =>
    have hfound : st.drift_data_found = true := by
      rw [runScan_ok_found lines hscan]
      simp only [initState, Bool.false_or]
      rw [List.any_eq_true]
      obtain ⟨l, hl, hld⟩ := hdrift
      exact ⟨l, hl, by simpa [Option.isSome_iff_ne_none] using hld⟩
    have hwc : st.wafer_centre = [] := by
      have := (runScan_ok_wafer lines hscan).1
      rw [List.filterMap_eq_nil_iff.mpr hnoc] at this
      simpa [initState] using this
    have hpd : st.drift_pos_data ≠ [] := by
      rw [runScan_ok_pos lines hscan]
      simp only [initState, List.nil_append]
      intro hcon
      rw [List.map_eq_nil_iff] at hcon
      obtain ⟨l, hl, hlp⟩ := hpos
      exact hlp (List.filterMap_eq_nil_iff.mp hcon l hl)
    have hsne : sorted_drift_pos_data st.drift_pos_data ≠ [] := by
      unfold sorted_drift_pos_data
      intro hcon
      have := List.length_insertionSort posKeyLe st.drift_pos_data
      rw [hcon] at this
      exact hpd (List.eq_nil_of_length_eq_zero this.symm)
    obtain ⟨t, rest2, hsrt⟩ := List.exists_cons_of_ne_nil hsne
    refine ⟨.indexError, ?_⟩
    show runPipeline st = ProgResult.pyError PyError.indexError
    unfold runPipeline
    rw [if_neg (by rw [hfound]; simp)]
    rw [hwc, hsrt, relative_empty_err]

/-- Witness for C8: header + date + drift + block but no centre line crashes. -/
theorem c8_missing_centre_crash_witness :
    ∃ e, program "JMAN LOGFILE" noCentreLog = .pyError e :=
  c8_missing_centre_crash "JMAN LOGFILE" noCentreLog (by decide) (by decide)
    (by decide) (by decide)

/-- C9: On every successful run, the reported "min" drift value per axis is
an element of that axis's rate list with the smallest absolute value and the
reported "max" is an element with the largest absolute value, each with its
original sign; and for the drift-rate values `[-5.0, 3.2, -1.1]` the
selection picks min `-1.1` and max `-5.0`. -/
theorem c9_min_max_by_magnitude :
    (∀ (fl : String) (lines : List Line) (out : Output),
      program fl lines = .success out →
      (out.min_dx ∈ out.dxdt_values ∧
        ∀ v ∈ out.dxdt_values, |out.min_dx| ≤ |v|) ∧
      (out.max_dx ∈ out.dxdt_values ∧
        ∀ v ∈ out.dxdt_values, |v| ≤ |out.max_dx|) ∧
      (out.min_dy ∈ out.dydt_values ∧
        ∀ v ∈ out.dydt_values, |out.min_dy| ≤ |v|) ∧
      (out.max_dy ∈ out.dydt_values ∧
        ∀ v ∈ out.dydt_values, |v| ≤ |out.max_dy|)) ∧
    pyMinKey (fun q => |q|) [-5, 3.2, -1.1] = some (-1.1) ∧
    pyMaxKey (fun q => |q|) [-5, 3.2, -1.1] = some (-5) := by
  refine ⟨?_, ?_, ?_⟩
  · intro fl lines out hrun
    unfold program at hrun
    by_cases hh : headerOk fl
    · rw [if_pos hh] at hrun
      cases hscan : runScan initState lines with
      | error e => rw [hscan] at hrun; exact absurd hrun (by simp)
      | ok st =>
        rw [hscan] at hrun
        obtain ⟨-, rel, -, -, -, hdx, hdy, hmin1, hmax1, hmin2, hmax2, -⟩ :=
          runPipeline_success_inv hrun
        rw [← hdx] at hmin1 hmax1
        rw [← hdy] at hmin2 hmax2
        exact ⟨pyMinKey_spec hmin1, pyMaxKey_spec hmax1,
          pyMinKey_spec hmin2, pyMaxKey_spec hmax2⟩
    · rw [if_neg hh] at hrun
      exact absurd hrun (by simp)
  · unfold pyMinKey
    dsimp only
    rw [List.foldl_cons, if_pos (by norm_num [abs_of_pos]), List.foldl_cons,
      if_pos (by norm_num [abs_of_pos]), List.foldl_nil]
  · unfold pyMaxKey
    dsimp only
    rw [List.foldl_cons, if_neg (by norm_num [abs_of_pos]), List.foldl_cons,
      if_neg (by norm_num [abs_of_pos]), List.foldl_nil]

/-- Witness for C9's program-level conjunct, instantiated on the two-drift
sample log. -/
theorem c9_min_max_by_magnitude_witness :
    ∃ out, program "JMAN LOGFILE" twoDriftLog = .success out ∧
      (out.min_dx ∈ out.dxdt_values ∧
        ∀ v ∈ out.dxdt_values, |out.min_dx| ≤ |v|) ∧
      (out.max_dx ∈ out.dxdt_values ∧
        ∀ v ∈ out.dxdt_values, |v| ≤ |out.max_dx|) :=
  ⟨_, rfl,
   (c9_min_max_by_magnitude.1 "JMAN LOGFILE" twoDriftLog _ rfl).1,
   (c9_min_max_by_magnitude.1 "JMAN LOGFILE" twoDriftLog _ rfl).2.1⟩

/-- C10: When drift-rate values share the same extremal absolute value, both
the min-by-magnitude and the max-by-magnitude selections return the earliest
such value in file order (stated as: the selected value is the first list
element whose key reaches the extremal key); for `[5.0, -5.0]` both return
`5.0`.  The selection is a function of the list, hence deterministic in the
input order. -/
theorem c10_first_extremal_wins :
    (∀ (key : ℚ → ℚ) (l : List ℚ) (m : ℚ),
      pyMinKey key l = some m →
      l.find? (fun a => decide (key a ≤ key m)) = some m) ∧
    (∀ (key : ℚ → ℚ) (l : List ℚ) (m : ℚ),
      pyMaxKey key l = some m →
      l.find? (fun a => decide (key m ≤ key a)) = some m) ∧
    pyMinKey (fun q => |q|) [5, -5] = some 5 ∧
    pyMaxKey (fun q => |q|) [5, -5] = some 5 := by
  refine ⟨?_, ?_, by decide, by decide⟩
  · intro key l m h
    exact pyMinKey_first h
  · intro key l m h
    exact pyMaxKey_first h

/-- Witness for C10's universally quantified conjuncts at `[5, -5]`. -/
theorem c10_first_extremal_wins_witness :
    [(5 : ℚ), -5].find? (fun a => decide (|a| ≤ |(5 : ℚ)|)) = some 5 ∧
    [(5 : ℚ), -5].find? (fun a => decide (|(5 : ℚ)| ≤ |a|)) = some 5 :=
  ⟨c10_first_extremal_wins.1 (fun q => |q|) [5, -5] 5 (by decide),
   c10_first_extremal_wins.2.1 (fun q => |q|) [5, -5] 5 (by decide)⟩
